import Mathlib

/-!
Shallow embedding of the update-delivery core of `src/lib.rs` (a Telegram bot
client): the response envelope decoder (`Api::post_request`), the long-poll
listen loop (`Listener::listen`, `ListeningMethod::LongPoll` arm), and the
channel adapter (`Listener::channel`).

The network is modelled by a script: a list of responses, one per call to
`send_get_updates`, consumed in order.  Each response is either a decoded
batch of updates (`Except.ok`) or a fetch error (`Except.error`), covering
transport, decode, remote and envelope failures alike, since the loop matches
any `Err(e)` uniformly.  The loop is a structural recursion over the script;
a run whose script is exhausted ends in the `scriptEnd` outcome, meaning the
real loop would still be running.
-/

/-- `ListeningAction` of lib.rs (lines 404-408): the handler's directive. -/
inductive ListeningAction where
  | Continue
  | Stop
deriving DecidableEq

/-- Modelled from the spec: the error enum lives in `error.rs`, which is not
under `src/`.  Spec section 7 lists the kinds: `TransportError` (network/IO
fault), `DecodeError` (malformed body), `ApiError(description)` and
`InvalidState`.  `lib.rs` constructs `Error::Api` and `Error::InvalidState`
directly (lines 379-389). -/
inductive Err where
  | TransportError
  | DecodeError
  | Api (description : String)
  | InvalidState (msg : String)
deriving DecidableEq

/-- Modelled from the spec: `Update` is defined in `types.rs`, which is not
under `src/`.  The spec describes an immutable record with a strictly
increasing identifier `update_id` plus a variant payload; the listen loop
reads only `update_id` (lib.rs line 485), so the payload is not represented. -/
structure Update where
  update_id : Int
deriving DecidableEq

/-- The wire-level response envelope (spec section 3): a success flag, an
optional typed result, an optional description. -/
structure Response (T : Type) where
  ok : Bool
  result : Option T
  description : Option String

/-- The string wrapped by `Error::InvalidState` in lib.rs line 389. -/
def invalidStateMsg : String := "Invalid server response"

/-- The envelope dispatch of `Api::post_request` (lib.rs lines 376-390): the
match on the decoded `Response`, in source order.  The arms are
`Response ⟨ok := false, description := Some desc⟩ ↦ Err(Api desc)`, then
`Response ⟨ok := true, result := Some res⟩ ↦ Ok res`, then the catch-all
`Err(InvalidState "Invalid server response")`. -/
def post_request {T : Type} (r : Response T) : Except Err T :=
  match r with
  | ⟨false, _, some desc⟩ => Except.error (Err.Api desc)
  | ⟨true, some res, _⟩ => Except.ok res
  | _ => Except.error (Err.InvalidState invalidStateMsg)

/-- C2: the envelope decoder maps `⟨ok := true, result := some X⟩` to success
with X, `⟨ok := false, description := some e⟩` to `ApiError e`, `ok := true`
with no result to `InvalidState`, and `ok := false` with no description to
`InvalidState`; no other outcome is possible for a decoded envelope. -/
theorem post_request_envelope_laws (T : Type) (x : T) (res : Option T)
    (d : Option String) (e : String) (r : Response T) :
    post_request (Response.mk true (some x) d) = Except.ok x
    ∧ post_request (Response.mk false res (some e)) = Except.error (Err.Api e)
    ∧ post_request (Response.mk true (none : Option T) d)
        = Except.error (Err.InvalidState invalidStateMsg)
    ∧ post_request (Response.mk false res none)
        = Except.error (Err.InvalidState invalidStateMsg)
    ∧ ((∃ y, post_request r = Except.ok y)
        ∨ (∃ de, post_request r = Except.error (Err.Api de))
        ∨ post_request r = Except.error (Err.InvalidState invalidStateMsg)) := by
  refine ⟨?_, ?_, ?_, ?_, ?_⟩
  · rfl
  · cases res <;> rfl
  · rfl
  · cases res <;> rfl
  · rcases r with ⟨ok, result, desc⟩
    cases ok
    · cases desc
      · cases result <;> exact Or.inr (Or.inr rfl)
      · cases result <;> exact Or.inr (Or.inl ⟨_, rfl⟩)
    · cases result
      · cases desc <;> exact Or.inr (Or.inr rfl)
      · cases desc <;> exact Or.inl ⟨_, rfl⟩

/-- One call record of `Listener::send_get_updates` (lib.rs lines 428-435):
the `offset`, `timeout` and `limit` parameters passed to `getUpdates`. -/
structure FetchCall where
  offset : Int
  timeout : Option Int
  limit : Option Int
deriving DecidableEq

/-- Result of one handler invocation.  `ret r` is the handler returning the
`Result<ListeningAction>` value `r`; `block` models a handler that never
returns (the channel adapter's worker stuck on `res_rx.recv()`). -/
inductive HandlerOutcome where
  | ret (r : Except Err ListeningAction)
  | block

/-- How a run of `listen` ends against a finite script.  `ok` is
`return Ok(())`, `err e` is `return Err(e)`, `blocked` means a handler never
returned, and `scriptEnd` means the script ran out of responses while the
loop was still polling (the real loop would keep running). -/
inductive Outcome where
  | ok
  | err (e : Err)
  | blocked
  | scriptEnd
deriving DecidableEq

/-- How the `for u in updates` batch loop (lib.rs lines 484-520) ends:
`next h s` falls through to the next long poll with cursor `h`; `done` leaves
`listen` (or blocks) with the given outcome and final cursor pair. -/
inductive BatchEnd (σ : Type) where
  | next (h : Int) (s : σ)
  | done (o : Outcome) (h : Int) (c : Int) (s : σ)

/-- Observable effects of processing one batch: the force-acknowledge fetches
issued, the updates passed to the handler, the `(handled_until, confirmed)`
snapshots after each cursor mutation, and how the batch loop ended. -/
structure BatchOut (σ : Type) where
  fetches : List FetchCall
  handled : List Update
  snaps : List (Int × Int)
  fin : BatchEnd σ

/-- Observable effects of a whole `listen` run: outcome, every
`send_get_updates` call in order, every update passed to the handler in
order, the cursor snapshots, the final cursor pair, and the final handler
state. -/
structure RunOut (σ : Type) where
  outcome : Outcome
  fetches : List FetchCall
  handled : List Update
  snaps : List (Int × Int)
  hFinal : Int
  cFinal : Int
  sFinal : σ

/-- The cursor advance of lib.rs lines 504-506:
`if update_id >= handled_until { handled_until = update_id + 1 }`. -/
def advance (handled_until : Int) (u : Update) : Int :=
  if u.update_id ≥ handled_until then u.update_id + 1 else handled_until

/-- The `for u in updates` body of lib.rs lines 484-520, over the list of
updates of one batch.  `handler` is stateful (`FnMut`); `ack` is the response
the script holds for a force-acknowledge fetch, should one be issued (`none`
when the script is exhausted).  In source order: invoke the handler; on
`Err(e)` issue `send_get_updates(handled_until, None, Some(0))` via `try!`
(so a failing force-acknowledge fetch returns its own error instead), set
`confirmed`, and return `Err(e)`; otherwise advance `handled_until`; on
`Ok(Stop)` issue the same force-acknowledge fetch, set `confirmed`, and
return `Ok(())`; on `Ok(Continue)` move to the next update. -/
def processBatch {σ : Type} (handler : σ → Update → σ × HandlerOutcome)
    (ack : Option (Except Err (List Update))) :
    List Update → Int → Int → σ → BatchOut σ
  | [], h, _c, s => ⟨[], [], [], BatchEnd.next h s⟩
  | u :: us, h, c, s =>
    match handler s u with
    | (s', HandlerOutcome.block) => ⟨[], [u], [], BatchEnd.done Outcome.blocked h c s'⟩
    | (s', HandlerOutcome.ret (Except.error e)) =>
      match ack with
      | none => ⟨[⟨h, none, some 0⟩], [u], [], BatchEnd.done Outcome.scriptEnd h c s'⟩
      | some (Except.error e2) =>
        ⟨[⟨h, none, some 0⟩], [u], [], BatchEnd.done (Outcome.err e2) h c s'⟩
      | some (Except.ok _) =>
        ⟨[⟨h, none, some 0⟩], [u], [(h, h)], BatchEnd.done (Outcome.err e) h h s'⟩
    | (s', HandlerOutcome.ret (Except.ok a)) =>
      match a with
      | ListeningAction.Stop =>
        match ack with
        | none =>
          ⟨[⟨advance h u, none, some 0⟩], [u], [(advance h u, c)],
           BatchEnd.done Outcome.scriptEnd (advance h u) c s'⟩
        | some (Except.error e2) =>
          ⟨[⟨advance h u, none, some 0⟩], [u], [(advance h u, c)],
           BatchEnd.done (Outcome.err e2) (advance h u) c s'⟩
        | some (Except.ok _) =>
          ⟨[⟨advance h u, none, some 0⟩], [u], [(advance h u, c), (advance h u, advance h u)],
           BatchEnd.done Outcome.ok (advance h u) (advance h u) s'⟩
      | ListeningAction.Continue =>
        let r := processBatch handler ack us (advance h u) c s'
        ⟨r.fetches, u :: r.handled, (advance h u, c) :: r.snaps, r.fin⟩

/-- The `loop` of lib.rs lines 467-521, consuming one script entry per
`send_get_updates` call.  A regular fetch is issued at offset `handled_until`
with the configured timeout and no limit; on `Err(e)` the error is logged and
the loop `continue`s with the cursor unchanged; on `Ok(updates)` the code
sets `self.confirmed = handled_until` (line 481) and runs the batch loop.
The force-acknowledge response a batch may need is the next script entry
(`rest.head?`); when the batch falls through, that entry is instead consumed
by the next regular fetch. -/
def listenLoop {σ : Type} (handler : σ → Update → σ × HandlerOutcome) (tm : Option Int) :
    List (Except Err (List Update)) → Int → Int → σ → RunOut σ
  | [], h, c, s => ⟨Outcome.scriptEnd, [], [], [], h, c, s⟩
  | resp :: rest, h, c, s =>
    match resp with
    | Except.error _ =>
      let r := listenLoop handler tm rest h c s
      ⟨r.outcome, ⟨h, tm, none⟩ :: r.fetches, r.handled, r.snaps, r.hFinal, r.cFinal, r.sFinal⟩
    | Except.ok us =>
      let b := processBatch handler rest.head? us h h s
      match b.fin with
      | BatchEnd.next h' s' =>
        let r := listenLoop handler tm rest h' h s'
        ⟨r.outcome, ⟨h, tm, none⟩ :: (b.fetches ++ r.fetches), b.handled ++ r.handled,
         (h, h) :: (b.snaps ++ r.snaps), r.hFinal, r.cFinal, r.sFinal⟩
      | BatchEnd.done o h' c' s' =>
        ⟨o, ⟨h, tm, none⟩ :: b.fetches, b.handled, (h, h) :: b.snaps, h', c', s'⟩

/-- `Listener::listen` for `ListeningMethod::LongPoll(timeout)` (lib.rs lines
456-524): `handled_until` is seeded from `self.confirmed`, the timeout
defaults to 30 seconds (`timeout.or(Some(30))`), and the loop runs.  The
initial `(handled_until, confirmed)` pair is recorded as the first snapshot. -/
def listen {σ : Type} (timeout : Option Int) (confirmed : Int)
    (handler : σ → Update → σ × HandlerOutcome) (s : σ)
    (script : List (Except Err (List Update))) : RunOut σ :=
  let r := listenLoop handler (some (timeout.getD 30)) script confirmed confirmed s
  ⟨r.outcome, r.fetches, r.handled, (confirmed, confirmed) :: r.snaps,
   r.hFinal, r.cFinal, r.sFinal⟩

/-- A handler closure with no mutable state, returning `f u` on update `u`. -/
def pureHandler (f : Update → Except Err ListeningAction) :
    Unit → Update → Unit × HandlerOutcome :=
  fun _ u => ((), HandlerOutcome.ret (f u))

/-- The consumer-facing side of `Listener::channel` as the worker's handler
closure observes it (lib.rs lines 547-556).  `acks` are the acknowledgment
values the consumer will send on `res_tx`, in order; `ackSenderAlive` says
whether the consumer still holds the acknowledgment sender once `acks` is
exhausted (alive means `res_rx.recv()` stays pending; dropped means it
returns `Err(RecvError)` at once); `updateRxAlive` says whether the consumer
still holds the update receiver (when dropped, `update_tx.send(u)` fails);
`sent` records every update successfully placed in the update channel, i.e.
everything the consumer's receive calls can observe. -/
structure ChanSt where
  acks : List (Except Err ListeningAction)
  ackSenderAlive : Bool
  updateRxAlive : Bool
  sent : List Update

/-- The handler closure passed to `listen` by `Listener::channel` (lib.rs
lines 548-556): if `update_tx.send(u)` fails (receiver dropped) return
`Ok(Stop)`; otherwise block on `res_rx.recv()` and return its value, or
`Ok(Stop)` if the acknowledgment channel hung up
(`res_rx.recv().unwrap_or(Ok(ListeningAction::Stop))`).  With the sender
still alive and no acknowledgment sent, `recv` never returns: `block`. -/
def channelHandler (st : ChanSt) (u : Update) : ChanSt × HandlerOutcome :=
  if st.updateRxAlive then
    match st.acks with
    | a :: rest =>
      (⟨rest, st.ackSenderAlive, st.updateRxAlive, st.sent ++ [u]⟩, HandlerOutcome.ret a)
    | [] =>
      if st.ackSenderAlive then
        (⟨[], st.ackSenderAlive, st.updateRxAlive, st.sent ++ [u]⟩, HandlerOutcome.block)
      else
        (⟨[], st.ackSenderAlive, st.updateRxAlive, st.sent ++ [u]⟩,
         HandlerOutcome.ret (Except.ok ListeningAction.Stop))
  else (st, HandlerOutcome.ret (Except.ok ListeningAction.Stop))

/-- The worker spawned by `Listener::channel` (lib.rs lines 538-560): it runs
`self.listen` with `channelHandler` and discards the result
(`let _ = self.listen(...)`). -/
def channel (timeout : Option Int) (confirmed : Int) (st : ChanSt)
    (script : List (Except Err (List Update))) : RunOut ChanSt :=
  listen timeout confirmed channelHandler st script

/-- Strictly ascending `update_id`s, the order the remote side guarantees for
one batch (spec section 6). -/
def Ascending : List Update → Bool
  | [] => true
  | [_] => true
  | u :: v :: us => decide (u.update_id < v.update_id) && Ascending (v :: us)

/-- Every update in the list has identifier at least `o`. -/
def allGe (o : Int) (us : List Update) : Bool :=
  us.all fun u => decide (o ≤ u.update_id)

/-- The remote "get updates" contract (spec section 6) over a script, given
the first requested offset: each successful batch is ascending with all
identifiers at least the offset it answers, and the offset then moves to
`foldl advance`, the cursor the loop requests next after a full batch. -/
def Conforms : Int → List (Except Err (List Update)) → Bool
  | _, [] => true
  | o, Except.error _ :: rest => Conforms o rest
  | o, Except.ok us :: rest =>
    Ascending us && allGe o us && Conforms (us.foldl advance o) rest

/-- The cursor invariant along a snapshot trace starting at
`(handled_until, confirmed) = (h, c)`: each step is componentwise
non-decreasing and keeps `confirmed ≤ handled_until`. -/
def snapsOK : Int → Int → List (Int × Int) → Bool
  | _, _, [] => true
  | h, c, (h', c') :: rest =>
    decide (h ≤ h') && decide (c ≤ c') && decide (c' ≤ h') && snapsOK h' c' rest

/-- The last element of a snapshot trace, or the starting pair if empty. -/
def lastSnap (p : Int × Int) : List (Int × Int) → Int × Int
  | [] => p
  | q :: rest => lastSnap q rest

/-- The cursor pair a batch ends with: on fall-through the new
`handled_until` with `confirmed` untouched, on termination the recorded
final pair. -/
def finPair {σ : Type} (c : Int) : BatchEnd σ → Int × Int
  | BatchEnd.next h' _ => (h', c)
  | BatchEnd.done _ h' c' _ => (h', c')

/-- A script consisting only of failed fetches. -/
def allErrors (script : List (Except Err (List Update))) : Bool :=
  script.all fun x =>
    match x with
    | Except.error _ => true
    | Except.ok _ => false

lemma allGe_iff {o : Int} {us : List Update} :
    allGe o us = true ↔ ∀ u ∈ us, o ≤ u.update_id := by
  simp [allGe]

lemma allGe_mono {a b : Int} {us : List Update} (hab : a ≤ b)
    (h : allGe b us = true) : allGe a us = true := by
  rw [allGe_iff] at h ⊢
  exact fun u hu => le_trans hab (h u hu)

lemma advance_ge (h : Int) (u : Update) : h ≤ advance h u := by
  unfold advance; split <;> omega

lemma advance_gt_id (h : Int) (u : Update) : u.update_id < advance h u := by
  unfold advance; split <;> omega

lemma advance_eq_max (h : Int) (u : Update) : advance h u = max h (u.update_id + 1) := by
  unfold advance
  rcases le_total h u.update_id with hle | hle
  · rw [if_pos hle, max_eq_right (by omega)]
  · split
    · rw [max_eq_right (by omega)]
    · rw [max_eq_left (by omega)]

lemma advance_of_ge {h : Int} {u : Update} (hu : h ≤ u.update_id) :
    advance h u = u.update_id + 1 := by
  unfold advance; rw [if_pos hu]

lemma foldl_advance_le (us : List Update) : ∀ h : Int, h ≤ us.foldl advance h := by
  induction us with
  | nil => intro h; simp
  | cons u tl ih =>
    intro h
    rw [List.foldl_cons]
    exact le_trans (advance_ge h u) (ih (advance h u))

lemma foldl_advance_gt {u : Update} {us : List Update} (hu : u ∈ us) :
    ∀ h : Int, u.update_id < us.foldl advance h := by
  induction us with
  | nil => cases hu
  | cons v tl ih =>
    intro h
    rw [List.foldl_cons]
    rcases List.mem_cons.mp hu with heq | hmem
    · subst heq
      exact lt_of_lt_of_le (advance_gt_id h u) (foldl_advance_le tl (advance h u))
    · exact ih hmem (advance h v)

lemma ascending_cons_cons (u v : Update) (us : List Update) :
    Ascending (u :: v :: us)
      = (decide (u.update_id < v.update_id) && Ascending (v :: us)) := rfl

lemma ascending_tail {u : Update} {us : List Update}
    (h : Ascending (u :: us) = true) : Ascending us = true := by
  cases us with
  | nil => rfl
  | cons v tl =>
    rw [ascending_cons_cons, Bool.and_eq_true] at h
    exact h.2

lemma ascending_head_bound {u : Update} {us : List Update}
    (h : Ascending (u :: us) = true) : allGe (u.update_id + 1) us = true := by
  induction us generalizing u with
  | nil => rfl
  | cons v tl ih =>
    rw [ascending_cons_cons, Bool.and_eq_true] at h
    obtain ⟨huv, htl⟩ := h
    have hv : u.update_id < v.update_id := of_decide_eq_true huv
    have := ih htl
    rw [allGe_iff] at this ⊢
    intro w hw
    rcases List.mem_cons.mp hw with heq | hmem
    · subst heq; omega
    · have := this w hmem; omega

lemma ascending_cons {u : Update} {us : List Update}
    (h : Ascending us = true) (hu : ∀ v ∈ us, u.update_id < v.update_id) :
    Ascending (u :: us) = true := by
  cases us with
  | nil => rfl
  | cons v tl =>
    rw [ascending_cons_cons, Bool.and_eq_true]
    exact ⟨decide_eq_true (hu v (by simp)), h⟩

lemma ascending_append {xs ys : List Update} {m : Int}
    (hx : Ascending xs = true) (hy : Ascending ys = true)
    (hxm : ∀ x ∈ xs, x.update_id < m) (hmy : allGe m ys = true) :
    Ascending (xs ++ ys) = true := by
  induction xs with
  | nil => simpa using hy
  | cons x tl ih =>
    rw [List.cons_append]
    apply ascending_cons
    · exact ih (ascending_tail hx) (fun w hw => hxm w (List.mem_cons_of_mem x hw))
    · intro v hv
      rcases List.mem_append.mp hv with hmem | hmem
      · have := allGe_iff.mp (ascending_head_bound hx) v hmem; omega
      · have := allGe_iff.mp hmy v hmem
        have := hxm x (by simp)
        omega

lemma ascending_of_append_left {xs t : List Update}
    (h : Ascending (xs ++ t) = true) : Ascending xs = true := by
  induction xs with
  | nil => rfl
  | cons x tl ih =>
    cases tl with
    | nil => rfl
    | cons y tl2 =>
      rw [List.cons_append, List.cons_append, ascending_cons_cons, Bool.and_eq_true] at h
      rw [ascending_cons_cons, Bool.and_eq_true]
      refine ⟨h.1, ih ?_⟩
      rw [List.cons_append]
      exact h.2

lemma allGe_of_append_left {o : Int} {xs t : List Update}
    (h : allGe o (xs ++ t) = true) : allGe o xs = true := by
  rw [allGe_iff] at h ⊢
  exact fun u hu => h u (List.mem_append_left t hu)

lemma foldl_advance_getLast :
    ∀ (us : List Update) (h : Int) (hne : us ≠ []),
      Ascending us = true → allGe h us = true →
      us.foldl advance h = (us.getLast hne).update_id + 1 := by
  intro us
  induction us with
  | nil => intro h hne; exact absurd rfl hne
  | cons u tl ih =>
    intro h hne hA hG
    have hu : h ≤ u.update_id := allGe_iff.mp hG u (by simp)
    cases tl with
    | nil => simp [List.foldl, advance_of_ge hu, List.getLast]
    | cons v tl2 =>
      rw [List.foldl_cons, advance_of_ge hu,
        ih (u.update_id + 1) (by simp) (ascending_tail hA) (ascending_head_bound hA)]
      rfl

lemma listenLoop_error_step {σ : Type} (handler : σ → Update → σ × HandlerOutcome)
    (tm : Option Int) (e : Err) (rest : List (Except Err (List Update)))
    (h c : Int) (s : σ) :
    listenLoop handler tm (Except.error e :: rest) h c s
      = ⟨(listenLoop handler tm rest h c s).outcome,
         ⟨h, tm, none⟩ :: (listenLoop handler tm rest h c s).fetches,
         (listenLoop handler tm rest h c s).handled,
         (listenLoop handler tm rest h c s).snaps,
         (listenLoop handler tm rest h c s).hFinal,
         (listenLoop handler tm rest h c s).cFinal,
         (listenLoop handler tm rest h c s).sFinal⟩ := rfl

lemma listenLoop_ok_next {σ : Type} (handler : σ → Update → σ × HandlerOutcome)
    (tm : Option Int) (us : List Update) (rest : List (Except Err (List Update)))
    (h c : Int) (s : σ) (h' : Int) (s' : σ)
    (hfin : (processBatch handler rest.head? us h h s).fin = BatchEnd.next h' s') :
    listenLoop handler tm (Except.ok us :: rest) h c s
      = ⟨(listenLoop handler tm rest h' h s').outcome,
         ⟨h, tm, none⟩ :: ((processBatch handler rest.head? us h h s).fetches
            ++ (listenLoop handler tm rest h' h s').fetches),
         (processBatch handler rest.head? us h h s).handled
            ++ (listenLoop handler tm rest h' h s').handled,
         (h, h) :: ((processBatch handler rest.head? us h h s).snaps
            ++ (listenLoop handler tm rest h' h s').snaps),
         (listenLoop handler tm rest h' h s').hFinal,
         (listenLoop handler tm rest h' h s').cFinal,
         (listenLoop handler tm rest h' h s').sFinal⟩ := by
  conv_lhs => rw [listenLoop]
  rw [hfin]

lemma listenLoop_ok_done {σ : Type} (handler : σ → Update → σ × HandlerOutcome)
    (tm : Option Int) (us : List Update) (rest : List (Except Err (List Update)))
    (h c : Int) (s : σ) (o : Outcome) (h' c' : Int) (s' : σ)
    (hfin : (processBatch handler rest.head? us h h s).fin = BatchEnd.done o h' c' s') :
    listenLoop handler tm (Except.ok us :: rest) h c s
      = ⟨o, ⟨h, tm, none⟩ :: (processBatch handler rest.head? us h h s).fetches,
         (processBatch handler rest.head? us h h s).handled,
         (h, h) :: (processBatch handler rest.head? us h h s).snaps, h', c', s'⟩ := by
  conv_lhs => rw [listenLoop]
  rw [hfin]

lemma processBatch_fin_next {σ : Type} (handler : σ → Update → σ × HandlerOutcome)
    (ack : Option (Except Err (List Update))) :
    ∀ (us : List Update) (h c : Int) (s : σ) (h' : Int) (s' : σ),
      (processBatch handler ack us h c s).fin = BatchEnd.next h' s' →
      (processBatch handler ack us h c s).handled = us ∧ h' = us.foldl advance h := by
  intro us
  induction us with
  | nil =>
    intro h c s h' s' hfin
    simp only [processBatch, BatchEnd.next.injEq] at hfin
    simp [processBatch, List.foldl_nil, hfin.1]
  | cons u tl ih =>
    intro h c s h' s' hfin
    rcases hh : handler s u with ⟨s1, o⟩
    cases o with
    | block => simp [processBatch, hh] at hfin
    | ret r =>
      cases r with
      | error e =>
        rcases ack with _ | ⟨e2 | ar⟩ <;> simp [processBatch, hh] at hfin
      | ok a =>
        cases a with
        | Stop => rcases ack with _ | ⟨e2 | ar⟩ <;> simp [processBatch, hh] at hfin
        | Continue =>
          simp only [processBatch, hh] at hfin ⊢
          obtain ⟨h1, h2⟩ := ih (advance h u) c s1 h' s' hfin
          simp [h1, h2, List.foldl_cons]

lemma processBatch_handled_front {σ : Type} (handler : σ → Update → σ × HandlerOutcome)
    (ack : Option (Except Err (List Update))) :
    ∀ (us : List Update) (h c : Int) (s : σ),
      ∃ t, us = (processBatch handler ack us h c s).handled ++ t := by
  intro us
  induction us with
  | nil => intro h c s; exact ⟨[], rfl⟩
  | cons u tl ih =>
    intro h c s
    rcases hh : handler s u with ⟨s1, o⟩
    cases o with
    | block => exact ⟨tl, by simp [processBatch, hh]⟩
    | ret r =>
      cases r with
      | error e =>
        rcases ack with _ | ⟨e2 | ar⟩ <;> exact ⟨tl, by simp [processBatch, hh]⟩
      | ok a =>
        cases a with
        | Stop => rcases ack with _ | ⟨e2 | ar⟩ <;> exact ⟨tl, by simp [processBatch, hh]⟩
        | Continue =>
          obtain ⟨t, ht⟩ := ih (advance h u) c s1
          exact ⟨t, by simp [processBatch, hh]; exact ht⟩

lemma lastSnap_append (xs ys : List (Int × Int)) :
    ∀ p, lastSnap p (xs ++ ys) = lastSnap (lastSnap p xs) ys := by
  induction xs with
  | nil => intro p; rfl
  | cons q tl ih => intro p; simp only [List.cons_append, lastSnap]; exact ih q

lemma snapsOK_append : ∀ (xs ys : List (Int × Int)) (h c : Int),
    snapsOK h c xs = true →
    snapsOK (lastSnap (h, c) xs).1 (lastSnap (h, c) xs).2 ys = true →
    snapsOK h c (xs ++ ys) = true := by
  intro xs
  induction xs with
  | nil => intro ys h c _ hy; simpa [lastSnap] using hy
  | cons q tl ih =>
    intro ys h c hx hy
    rcases q with ⟨h1, c1⟩
    simp only [snapsOK, Bool.and_eq_true, decide_eq_true_eq] at hx
    obtain ⟨⟨⟨hhh, hcc⟩, hch⟩, htl⟩ := hx
    simp only [List.cons_append, snapsOK, Bool.and_eq_true, decide_eq_true_eq]
    refine ⟨⟨⟨hhh, hcc⟩, hch⟩, ?_⟩
    apply ih ys h1 c1 htl
    simpa [lastSnap] using hy

lemma processBatch_snaps {σ : Type} (handler : σ → Update → σ × HandlerOutcome)
    (ack : Option (Except Err (List Update))) :
    ∀ (us : List Update) (h c : Int) (s : σ), c ≤ h →
      snapsOK h c ((processBatch handler ack us h c s).snaps) = true
      ∧ lastSnap (h, c) ((processBatch handler ack us h c s).snaps)
          = finPair c ((processBatch handler ack us h c s).fin) := by
  intro us
  induction us with
  | nil => intro h c s hch; simp [processBatch, snapsOK, lastSnap, finPair]
  | cons u tl ih =>
    intro h c s hch
    have hadv : h ≤ advance h u := advance_ge h u
    have hca : c ≤ advance h u := le_trans hch hadv
    rcases hh : handler s u with ⟨s1, o⟩
    cases o with
    | block => simp [processBatch, hh, snapsOK, lastSnap, finPair]
    | ret r =>
      cases r with
      | error e =>
        rcases ack with _ | ⟨e2 | ar⟩ <;>
          simp [processBatch, hh, snapsOK, lastSnap, finPair, hch]
      | ok a =>
        cases a with
        | Stop =>
          rcases ack with _ | ⟨e2 | ar⟩ <;>
            simp [processBatch, hh, snapsOK, lastSnap, finPair, hch, hadv, hca]
        | Continue =>
          obtain ⟨ih1, ih2⟩ := ih (advance h u) c s1 hca
          constructor
          · simp [processBatch, hh, snapsOK, hadv, hca, ih1]
          · simp [processBatch, hh, lastSnap, finPair, ih2]

lemma allGe_append {o : Int} {xs ys : List Update} :
    allGe o (xs ++ ys) = (allGe o xs && allGe o ys) := by
  simp [allGe, List.all_append]

lemma conforms_error_cons (o : Int) (e : Err) (rest : List (Except Err (List Update))) :
    Conforms o (Except.error e :: rest) = Conforms o rest := rfl

lemma conforms_ok_cons (o : Int) (us : List Update)
    (rest : List (Except Err (List Update))) :
    Conforms o (Except.ok us :: rest)
      = (Ascending us && allGe o us && Conforms (us.foldl advance o) rest) := rfl

lemma listenLoop_snapsOK {σ : Type} (handler : σ → Update → σ × HandlerOutcome)
    (tm : Option Int) :
    ∀ (script : List (Except Err (List Update))) (h c : Int) (s : σ), c ≤ h →
      snapsOK h c ((listenLoop handler tm script h c s).snaps) = true := by
  intro script
  induction script with
  | nil => intro h c s hch; simp [listenLoop, snapsOK]
  | cons resp rest ih =>
    intro h c s hch
    cases resp with
    | error e =>
      rw [listenLoop_error_step]
      exact ih h c s hch
    | ok us =>
      obtain ⟨hb, hlast⟩ := processBatch_snaps handler rest.head? us h h s le_rfl
      rcases hfin : (processBatch handler rest.head? us h h s).fin with ⟨h', s'⟩ | ⟨o, h', c', s'⟩
      · obtain ⟨-, hh'⟩ := processBatch_fin_next handler rest.head? us h h s h' s' hfin
        have hhle : h ≤ h' := by rw [hh']; exact foldl_advance_le us h
        rw [listenLoop_ok_next handler tm us rest h c s h' s' hfin]
        simp only [snapsOK, Bool.and_eq_true, decide_eq_true_eq]
        refine ⟨⟨⟨le_refl h, hch⟩, le_refl h⟩, ?_⟩
        apply snapsOK_append _ _ _ _ hb
        rw [hlast, hfin]
        simpa [finPair] using ih h' h s' hhle
      · rw [listenLoop_ok_done handler tm us rest h c s o h' c' s' hfin]
        simp only [snapsOK, Bool.and_eq_true, decide_eq_true_eq]
        exact ⟨⟨⟨le_refl h, hch⟩, le_refl h⟩, hb⟩

lemma listenLoop_handled {σ : Type} (handler : σ → Update → σ × HandlerOutcome)
    (tm : Option Int) :
    ∀ (script : List (Except Err (List Update))) (h c : Int) (s : σ),
      Conforms h script = true →
      Ascending ((listenLoop handler tm script h c s).handled) = true
      ∧ allGe h ((listenLoop handler tm script h c s).handled) = true := by
  intro script
  induction script with
  | nil => intro h c s _; exact ⟨rfl, rfl⟩
  | cons resp rest ih =>
    intro h c s hconf
    cases resp with
    | error e =>
      rw [listenLoop_error_step]
      rw [conforms_error_cons] at hconf
      exact ih h c s hconf
    | ok us =>
      rw [conforms_ok_cons, Bool.and_eq_true, Bool.and_eq_true] at hconf
      obtain ⟨⟨hA, hG⟩, hC⟩ := hconf
      rcases hfin : (processBatch handler rest.head? us h h s).fin with ⟨h', s'⟩ | ⟨o, h', c', s'⟩
      · obtain ⟨hhandled, hh'⟩ := processBatch_fin_next handler rest.head? us h h s h' s' hfin
        rw [listenLoop_ok_next handler tm us rest h c s h' s' hfin]
        obtain ⟨ihA, ihG⟩ := ih h' h s' (by rw [hh']; exact hC)
        have hfold : h ≤ h' := by rw [hh']; exact foldl_advance_le us h
        constructor
        · show Ascending ((processBatch handler rest.head? us h h s).handled
              ++ (listenLoop handler tm rest h' h s').handled) = true
          rw [hhandled]
          refine ascending_append hA ihA ?_ ihG
          intro x hx
          rw [hh']
          exact foldl_advance_gt hx h
        · show allGe h ((processBatch handler rest.head? us h h s).handled
              ++ (listenLoop handler tm rest h' h s').handled) = true
          rw [hhandled, allGe_append, Bool.and_eq_true]
          exact ⟨hG, allGe_mono hfold ihG⟩
      · rw [listenLoop_ok_done handler tm us rest h c s o h' c' s' hfin]
        obtain ⟨t, ht⟩ := processBatch_handled_front handler rest.head? us h h s
        constructor
        · exact ascending_of_append_left (by rw [← ht]; exact hA)
        · exact allGe_of_append_left (by rw [← ht]; exact hG)

lemma listenLoop_fetches_head {σ : Type} (handler : σ → Update → σ × HandlerOutcome)
    (tm : Option Int) (resp : Except Err (List Update))
    (rest : List (Except Err (List Update))) (h c : Int) (s : σ) :
    ∃ tail, (listenLoop handler tm (resp :: rest) h c s).fetches
      = FetchCall.mk h tm none :: tail := by
  cases resp with
  | error e => exact ⟨_, rfl⟩
  | ok us =>
    rcases hfin : (processBatch handler rest.head? us h h s).fin with ⟨h', s'⟩ | ⟨o, h', c', s'⟩
    · rw [listenLoop_ok_next handler tm us rest h c s h' s' hfin]; exact ⟨_, rfl⟩
    · rw [listenLoop_ok_done handler tm us rest h c s o h' c' s' hfin]; exact ⟨_, rfl⟩

lemma listenLoop_all_errors {σ : Type} (handler : σ → Update → σ × HandlerOutcome)
    (tm : Option Int) :
    ∀ (script : List (Except Err (List Update))) (h c : Int) (s : σ),
      allErrors script = true →
      (listenLoop handler tm script h c s).outcome = Outcome.scriptEnd
      ∧ (listenLoop handler tm script h c s).handled = []
      ∧ (listenLoop handler tm script h c s).hFinal = h
      ∧ (listenLoop handler tm script h c s).cFinal = c := by
  intro script
  induction script with
  | nil => intro h c s _; exact ⟨rfl, rfl, rfl, rfl⟩
  | cons resp rest ih =>
    intro h c s hall
    cases resp with
    | error e =>
      rw [listenLoop_error_step]
      exact ih h c s (by simpa [allErrors] using hall)
    | ok us => simp [allErrors] at hall

lemma processBatch_continue_all (ack : Option (Except Err (List Update))) :
    ∀ (us : List Update) (h c : Int),
      (processBatch (pureHandler fun _ => Except.ok ListeningAction.Continue) ack us h c ()).fetches = []
      ∧ (processBatch (pureHandler fun _ => Except.ok ListeningAction.Continue) ack us h c ()).handled = us
      ∧ (processBatch (pureHandler fun _ => Except.ok ListeningAction.Continue) ack us h c ()).fin
          = BatchEnd.next (us.foldl advance h) () := by
  intro us
  induction us with
  | nil => intro h c; exact ⟨rfl, rfl, rfl⟩
  | cons u tl ih =>
    intro h c
    obtain ⟨h1, h2, h3⟩ := ih (advance h u) c
    refine ⟨?_, ?_, ?_⟩ <;>
      simp [processBatch, pureHandler, h1, h2, h3, List.foldl_cons]

lemma processBatch_channel_blocks (ack : Option (Except Err (List Update))) :
    ∀ (us : List Update) (pre : List Update) (h c : Int), us ≠ [] →
      ∃ h',
        (processBatch channelHandler ack us h c
            ⟨List.replicate (us.length - 1) (Except.ok ListeningAction.Continue),
             true, true, pre⟩).fin
          = BatchEnd.done Outcome.blocked h' c ⟨[], true, true, pre ++ us⟩
        ∧ (processBatch channelHandler ack us h c
            ⟨List.replicate (us.length - 1) (Except.ok ListeningAction.Continue),
             true, true, pre⟩).handled = us
        ∧ (processBatch channelHandler ack us h c
            ⟨List.replicate (us.length - 1) (Except.ok ListeningAction.Continue),
             true, true, pre⟩).fetches = [] := by
  intro us
  induction us with
  | nil => intro pre h c hne; exact absurd rfl hne
  | cons u tl ih =>
    intro pre h c _
    cases tl with
    | nil => exact ⟨h, rfl, rfl, rfl⟩
    | cons v tl2 =>
      obtain ⟨h', hfin, hhandled, hfetches⟩ := ih (pre ++ [u]) (advance h u) c (by simp)
      have hstep : processBatch channelHandler ack (u :: v :: tl2) h c
            ⟨List.replicate ((u :: v :: tl2).length - 1) (Except.ok ListeningAction.Continue),
             true, true, pre⟩
          = ⟨(processBatch channelHandler ack (v :: tl2) (advance h u) c
                ⟨List.replicate ((v :: tl2).length - 1) (Except.ok ListeningAction.Continue),
                 true, true, pre ++ [u]⟩).fetches,
             u :: (processBatch channelHandler ack (v :: tl2) (advance h u) c
                ⟨List.replicate ((v :: tl2).length - 1) (Except.ok ListeningAction.Continue),
                 true, true, pre ++ [u]⟩).handled,
             (advance h u, c) :: (processBatch channelHandler ack (v :: tl2) (advance h u) c
                ⟨List.replicate ((v :: tl2).length - 1) (Except.ok ListeningAction.Continue),
                 true, true, pre ++ [u]⟩).snaps,
             (processBatch channelHandler ack (v :: tl2) (advance h u) c
                ⟨List.replicate ((v :: tl2).length - 1) (Except.ok ListeningAction.Continue),
                 true, true, pre ++ [u]⟩).fin⟩ := rfl
      refine ⟨h', ?_, ?_, ?_⟩
      · rw [hstep]
        show (processBatch channelHandler ack (v :: tl2) (advance h u) c
            ⟨List.replicate ((v :: tl2).length - 1) (Except.ok ListeningAction.Continue),
             true, true, pre ++ [u]⟩).fin = _
        rw [hfin]
        simp
      · rw [hstep]
        show u :: (processBatch channelHandler ack (v :: tl2) (advance h u) c
            ⟨List.replicate ((v :: tl2).length - 1) (Except.ok ListeningAction.Continue),
             true, true, pre ++ [u]⟩).handled = u :: v :: tl2
        rw [hhandled]
      · rw [hstep]
        show (processBatch channelHandler ack (v :: tl2) (advance h u) c
            ⟨List.replicate ((v :: tl2).length - 1) (Except.ok ListeningAction.Continue),
             true, true, pre ++ [u]⟩).fetches = []
        exact hfetches

/-- C1: in the long-poll listen loop, when every event of a batch with
identifiers i1 < ... < in is handled successfully (the handler returns
Ok(Continue) each time), the offset of the fetch after the batch is in + 1;
each successful event advances `handled_until` to
max(handled_until, update_id + 1); and, under the remote contract
(`Conforms`), the identifiers passed to the handler are strictly ascending
over the whole run, so no event is ever passed to the handler twice within
one run. -/
theorem listen_batch_cursor_next_offset (tm : Option Int) (o c c2 : Int)
    (us : List Update) (resp : Except Err (List Update))
    (rest : List (Except Err (List Update)))
    (σ : Type) (handler : σ → Update → σ × HandlerOutcome) (s : σ)
    (h : Int) (u : Update)
    (hne : us ≠ [])
    (hconf : Conforms o (Except.ok us :: resp :: rest) = true) :
    ((listenLoop (pureHandler fun _ => Except.ok ListeningAction.Continue) tm
        (Except.ok us :: resp :: rest) o c ()).fetches).take 2
      = [FetchCall.mk o tm none,
         FetchCall.mk ((us.getLast hne).update_id + 1) tm none]
    ∧ advance h u = max h (u.update_id + 1)
    ∧ Ascending ((listenLoop handler tm (Except.ok us :: resp :: rest) o c2 s).handled)
        = true := by
  have hconf0 := hconf
  rw [conforms_ok_cons, Bool.and_eq_true, Bool.and_eq_true] at hconf0
  obtain ⟨⟨hA, hG⟩, hC⟩ := hconf0
  refine ⟨?_, advance_eq_max h u, (listenLoop_handled handler tm _ o c2 s hconf).1⟩
  obtain ⟨hf, hhand, hfin⟩ := processBatch_continue_all (some resp) us o o
  rw [listenLoop_ok_next (pureHandler fun _ => Except.ok ListeningAction.Continue) tm us
      (resp :: rest) o c () (us.foldl advance o) () hfin]
  obtain ⟨tail, htail⟩ := listenLoop_fetches_head
      (pureHandler fun _ => Except.ok ListeningAction.Continue) tm resp rest
      (us.foldl advance o) o ()
  have hfold : us.foldl advance o = (us.getLast hne).update_id + 1 :=
    foldl_advance_getLast us o hne hA hG
  rw [hfold] at htail
  simp [hf, htail, hfold]

/-- Witness for C1 at a concrete input: batch [1, 2] at offset 0, empty
follow-up batch; the second fetch is at offset 3. -/
theorem listen_batch_cursor_next_offset_w :
    ((listenLoop (pureHandler fun _ => Except.ok ListeningAction.Continue) none
        (Except.ok [Update.mk 1, Update.mk 2] :: Except.ok [] :: []) 0 0 ()).fetches).take 2
      = [FetchCall.mk 0 none none, FetchCall.mk 3 none none]
    ∧ advance 0 (Update.mk 1) = max 0 ((Update.mk 1).update_id + 1)
    ∧ Ascending ((listenLoop (pureHandler fun _ => Except.ok ListeningAction.Continue) none
        (Except.ok [Update.mk 1, Update.mk 2] :: Except.ok [] :: []) 0 0 ()).handled)
        = true := by
  have := listen_batch_cursor_next_offset none 0 0 0 [Update.mk 1, Update.mk 2]
      (Except.ok []) [] Unit (pureHandler fun _ => Except.ok ListeningAction.Continue) ()
      0 (Update.mk 1) (by decide) (by decide)
  exact ⟨this.1, this.2.1, this.2.2⟩

/-- C5: throughout one run of `listen` (under the remote contract on the
script) the snapshot trace of `(handled_until, confirmed)`, starting from the
seed `(confirmed, confirmed)`, is componentwise non-decreasing and satisfies
`confirmed ≤ handled_until` at every recorded point between fetches. -/
theorem listen_cursor_invariant {σ : Type} (timeout : Option Int) (c0 : Int)
    (handler : σ → Update → σ × HandlerOutcome) (s : σ)
    (script : List (Except Err (List Update)))
    (_hconf : Conforms c0 script = true) :
    snapsOK c0 c0 ((listen timeout c0 handler s script).snaps) = true := by
  have hloop := listenLoop_snapsOK handler (some (timeout.getD 30)) script c0 c0 s le_rfl
  show snapsOK c0 c0 ((c0, c0)
      :: (listenLoop handler (some (timeout.getD 30)) script c0 c0 s).snaps) = true
  simp only [snapsOK, Bool.and_eq_true, decide_eq_true_eq]
  exact ⟨⟨⟨le_refl c0, le_refl c0⟩, le_refl c0⟩, hloop⟩

/-- Witness for C5 at a concrete input: one batch [1] from offset 0 with a
constantly continuing handler. -/
theorem listen_cursor_invariant_w :
    snapsOK 0 0 ((listen none 0 (pureHandler fun _ => Except.ok ListeningAction.Continue)
        () [Except.ok [Update.mk 1]]).snaps) = true :=
  listen_cursor_invariant none 0 (pureHandler fun _ => Except.ok ListeningAction.Continue)
    () [Except.ok [Update.mk 1]] (by decide)

/-- C6: when a regular fetch fails with a transport error, the loop only logs
it and retries at once: the whole rest of the run is the run without that
failed fetch, except that the failed call (at the same offset, which is not
advanced) is recorded; in particular the next fetch repeats the same offset
and the error is never the run's outcome on account of that fetch. -/
theorem transport_error_retried {σ : Type} (tm : Option Int) (h c : Int)
    (handler : σ → Update → σ × HandlerOutcome) (s : σ)
    (resp : Except Err (List Update)) (rest : List (Except Err (List Update))) :
    (listenLoop handler tm (Except.error Err.TransportError :: resp :: rest) h c s).outcome
      = (listenLoop handler tm (resp :: rest) h c s).outcome
    ∧ (listenLoop handler tm (Except.error Err.TransportError :: resp :: rest) h c s).handled
      = (listenLoop handler tm (resp :: rest) h c s).handled
    ∧ (listenLoop handler tm (Except.error Err.TransportError :: resp :: rest) h c s).snaps
      = (listenLoop handler tm (resp :: rest) h c s).snaps
    ∧ (listenLoop handler tm (Except.error Err.TransportError :: resp :: rest) h c s).hFinal
      = (listenLoop handler tm (resp :: rest) h c s).hFinal
    ∧ (listenLoop handler tm (Except.error Err.TransportError :: resp :: rest) h c s).cFinal
      = (listenLoop handler tm (resp :: rest) h c s).cFinal
    ∧ (listenLoop handler tm (Except.error Err.TransportError :: resp :: rest) h c s).fetches
      = FetchCall.mk h tm none :: (listenLoop handler tm (resp :: rest) h c s).fetches
    ∧ ((listenLoop handler tm (Except.error Err.TransportError :: resp :: rest) h c s).fetches).take 2
      = [FetchCall.mk h tm none, FetchCall.mk h tm none] := by
  obtain ⟨tail, htail⟩ := listenLoop_fetches_head handler tm resp rest h c s
  rw [listenLoop_error_step]
  exact ⟨rfl, rfl, rfl, rfl, rfl, rfl, by simp [htail]⟩

/-- C10: the in-place retry of a failed regular fetch is uniform in the error
kind: for every error `e` (transport, decode, envelope violation or remote
ApiError alike) the run is the run without that failed fetch plus the
recorded call at the unchanged offset; and a run whose every fetch fails
never returns at all (its outcome is the end of the script, with no update
handled and the cursor pair untouched), so no fetch error of any kind is
ever returned to the caller. -/
theorem fetch_error_retried_any_kind {σ : Type} (tm : Option Int) (h c : Int)
    (handler : σ → Update → σ × HandlerOutcome) (s : σ) (e : Err)
    (resp : Except Err (List Update)) (rest : List (Except Err (List Update)))
    (script : List (Except Err (List Update))) (hall : allErrors script = true) :
    (listenLoop handler tm (Except.error e :: resp :: rest) h c s).outcome
      = (listenLoop handler tm (resp :: rest) h c s).outcome
    ∧ (listenLoop handler tm (Except.error e :: resp :: rest) h c s).handled
      = (listenLoop handler tm (resp :: rest) h c s).handled
    ∧ (listenLoop handler tm (Except.error e :: resp :: rest) h c s).fetches
      = FetchCall.mk h tm none :: (listenLoop handler tm (resp :: rest) h c s).fetches
    ∧ ((listenLoop handler tm (Except.error e :: resp :: rest) h c s).fetches).take 2
      = [FetchCall.mk h tm none, FetchCall.mk h tm none]
    ∧ (listenLoop handler tm script h c s).outcome = Outcome.scriptEnd
    ∧ (listenLoop handler tm script h c s).handled = []
    ∧ (listenLoop handler tm script h c s).hFinal = h
    ∧ (listenLoop handler tm script h c s).cFinal = c := by
  obtain ⟨tail, htail⟩ := listenLoop_fetches_head handler tm resp rest h c s
  obtain ⟨ho, hh, hhf, hcf⟩ := listenLoop_all_errors handler tm script h c s hall
  rw [listenLoop_error_step]
  exact ⟨rfl, rfl, rfl, by simp [htail], ho, hh, hhf, hcf⟩

/-- Witness for C10 at a concrete input: a run whose fetches all fail, one
with each error kind. -/
theorem fetch_error_retried_any_kind_w :
    (listenLoop (pureHandler fun _ => Except.ok ListeningAction.Continue) none
        (Except.error Err.DecodeError :: Except.ok [] :: []) 0 0 ()).outcome
      = (listenLoop (pureHandler fun _ => Except.ok ListeningAction.Continue) none
        (Except.ok [] :: []) 0 0 ()).outcome
    ∧ (listenLoop (pureHandler fun _ => Except.ok ListeningAction.Continue) none
        (Except.error Err.DecodeError :: Except.ok [] :: []) 0 0 ()).handled
      = (listenLoop (pureHandler fun _ => Except.ok ListeningAction.Continue) none
        (Except.ok [] :: []) 0 0 ()).handled
    ∧ (listenLoop (pureHandler fun _ => Except.ok ListeningAction.Continue) none
        (Except.error Err.DecodeError :: Except.ok [] :: []) 0 0 ()).fetches
      = FetchCall.mk 0 none none :: (listenLoop (pureHandler fun _ => Except.ok ListeningAction.Continue) none
        (Except.ok [] :: []) 0 0 ()).fetches
    ∧ ((listenLoop (pureHandler fun _ => Except.ok ListeningAction.Continue) none
        (Except.error Err.DecodeError :: Except.ok [] :: []) 0 0 ()).fetches).take 2
      = [FetchCall.mk 0 none none, FetchCall.mk 0 none none]
    ∧ (listenLoop (pureHandler fun _ => Except.ok ListeningAction.Continue) none
        [Except.error Err.TransportError, Except.error Err.DecodeError,
         Except.error (Err.InvalidState invalidStateMsg),
         Except.error (Err.Api invalidStateMsg)] 0 0 ()).outcome = Outcome.scriptEnd
    ∧ (listenLoop (pureHandler fun _ => Except.ok ListeningAction.Continue) none
        [Except.error Err.TransportError, Except.error Err.DecodeError,
         Except.error (Err.InvalidState invalidStateMsg),
         Except.error (Err.Api invalidStateMsg)] 0 0 ()).handled = []
    ∧ (listenLoop (pureHandler fun _ => Except.ok ListeningAction.Continue) none
        [Except.error Err.TransportError, Except.error Err.DecodeError,
         Except.error (Err.InvalidState invalidStateMsg),
         Except.error (Err.Api invalidStateMsg)] 0 0 ()).hFinal = 0
    ∧ (listenLoop (pureHandler fun _ => Except.ok ListeningAction.Continue) none
        [Except.error Err.TransportError, Except.error Err.DecodeError,
         Except.error (Err.InvalidState invalidStateMsg),
         Except.error (Err.Api invalidStateMsg)] 0 0 ()).cFinal = 0 :=
  fetch_error_retried_any_kind none 0 0 (pureHandler fun _ => Except.ok ListeningAction.Continue)
    () Err.DecodeError (Except.ok []) []
    [Except.error Err.TransportError, Except.error Err.DecodeError,
     Except.error (Err.InvalidState invalidStateMsg), Except.error (Err.Api invalidStateMsg)]
    (by decide)

/-- A handler that fails with error `e` on the update with identifier 7 and
continues on every other update. -/
def errOn7 (e : Err) : Unit → Update → Unit × HandlerOutcome :=
  pureHandler fun u =>
    if u.update_id = 7 then Except.error e else Except.ok ListeningAction.Continue

/-- Counterexample to C3: with the batch [5, 6, 7, 8] and a handler failing
on 7, the run invokes the handler for exactly 5, 6, 7 and returns the error,
but the force-acknowledge fetch is issued at offset 7 (the `handled_until`
current when the handler fails, the failed update being unacknowledged), not
at offset 8 as the claim states: no fetch with offset 8 occurs. -/
theorem listen_err_ack_offset_cex :
    (listen none 5 (errOn7 Err.DecodeError) ()
        [Except.ok [Update.mk 5, Update.mk 6, Update.mk 7, Update.mk 8], Except.ok []]).fetches
      = [FetchCall.mk 5 (some 30) none, FetchCall.mk 7 none (some 0)]
    ∧ FetchCall.mk 8 none (some 0)
        ∉ (listen none 5 (errOn7 Err.DecodeError) ()
        [Except.ok [Update.mk 5, Update.mk 6, Update.mk 7, Update.mk 8], Except.ok []]).fetches
    ∧ (listen none 5 (errOn7 Err.DecodeError) ()
        [Except.ok [Update.mk 5, Update.mk 6, Update.mk 7, Update.mk 8], Except.ok []]).handled
      = [Update.mk 5, Update.mk 6, Update.mk 7]
    ∧ (listen none 5 (errOn7 Err.DecodeError) ()
        [Except.ok [Update.mk 5, Update.mk 6, Update.mk 7, Update.mk 8], Except.ok []]).outcome
      = Outcome.err Err.DecodeError := by
  refine ⟨rfl, ?_, rfl, rfl⟩
  decide

/-- C3 as amended: if the handler errors with `e` on identifier 7 within the
batch [5, 6, 7, 8], the handler has been invoked for exactly 5, 6 and 7 (not
8), one force-acknowledge fetch is issued at offset 7 — the `handled_until`
reached by the successfully handled events 5 and 6, leaving the failed
update 7 unacknowledged — and, the force-acknowledge fetch succeeding,
`listen` returns the handler's original error `e` to the caller. -/
theorem listen_err_ack_at_handled_until (e : Err) (ar : List Update)
    (rest : List (Except Err (List Update))) :
    (listen none 5 (errOn7 e) ()
        (Except.ok [Update.mk 5, Update.mk 6, Update.mk 7, Update.mk 8]
          :: Except.ok ar :: rest)).handled
      = [Update.mk 5, Update.mk 6, Update.mk 7]
    ∧ (listen none 5 (errOn7 e) ()
        (Except.ok [Update.mk 5, Update.mk 6, Update.mk 7, Update.mk 8]
          :: Except.ok ar :: rest)).fetches
      = [FetchCall.mk 5 (some 30) none, FetchCall.mk 7 none (some 0)]
    ∧ (listen none 5 (errOn7 e) ()
        (Except.ok [Update.mk 5, Update.mk 6, Update.mk 7, Update.mk 8]
          :: Except.ok ar :: rest)).outcome
      = Outcome.err e := ⟨rfl, rfl, rfl⟩

/-- A handler that returns Ok(Stop) on the update with identifier 5 and
continues on every other update. -/
def stopOn5 : Unit → Update → Unit × HandlerOutcome :=
  pureHandler fun u =>
    if u.update_id = 5 then Except.ok ListeningAction.Stop
    else Except.ok ListeningAction.Continue

/-- C4: with the batch [5, 6] and a handler returning Stop on identifier 5,
`listen` issues a force-acknowledge fetch with offset 6, returns Ok, and the
handler is never invoked for identifier 6: the only handled update is 5. -/
theorem listen_stop_acks_next (ar : List Update)
    (rest : List (Except Err (List Update))) :
    (listen none 5 stopOn5 ()
        (Except.ok [Update.mk 5, Update.mk 6] :: Except.ok ar :: rest)).outcome
      = Outcome.ok
    ∧ (listen none 5 stopOn5 ()
        (Except.ok [Update.mk 5, Update.mk 6] :: Except.ok ar :: rest)).fetches
      = [FetchCall.mk 5 (some 30) none, FetchCall.mk 6 none (some 0)]
    ∧ (listen none 5 stopOn5 ()
        (Except.ok [Update.mk 5, Update.mk 6] :: Except.ok ar :: rest)).handled
      = [Update.mk 5] := ⟨rfl, rfl, rfl⟩

/-- Counterexample to C7: two events [1, 2] are available and the consumer
sends exactly one acknowledgment (N = 2, N − 1 = 1).  The worker sends event
1, consumes the acknowledgment, then sends event 2 and only afterwards blocks
awaiting its acknowledgment: both events are in the update channel and
observable by the consumer's receive calls, so the number observable is 2,
not N − 1 = 1 as the claim states. -/
theorem channel_ack_count_cex :
    ((channel none 0 ⟨[Except.ok ListeningAction.Continue], true, true, []⟩
        [Except.ok [Update.mk 1, Update.mk 2]]).sFinal).sent
      = [Update.mk 1, Update.mk 2]
    ∧ ¬ (((channel none 0 ⟨[Except.ok ListeningAction.Continue], true, true, []⟩
        [Except.ok [Update.mk 1, Update.mk 2]]).sFinal).sent).length = 1
    ∧ (channel none 0 ⟨[Except.ok ListeningAction.Continue], true, true, []⟩
        [Except.ok [Update.mk 1, Update.mk 2]]).outcome = Outcome.blocked := by
  refine ⟨rfl, ?_, rfl⟩
  decide

/-- C7 as amended: the worker's handler does not return for an event until
the consumer acknowledges it (with no acknowledgment left and the sender kept
alive, the run ends blocked), and for N available events with N − 1
acknowledgments sent the consumer can observe exactly N events — the worker
still sends the Nth event and only then blocks awaiting its acknowledgment —
and nothing beyond them: no further event and no further fetch is ever
produced. -/
theorem channel_acks_events_count (tm : Option Int) (c0 : Int) (us : List Update)
    (rest : List (Except Err (List Update))) (hne : us ≠ []) :
    ((channel tm c0
        ⟨List.replicate (us.length - 1) (Except.ok ListeningAction.Continue), true, true, []⟩
        (Except.ok us :: rest)).sFinal).sent = us
    ∧ (channel tm c0
        ⟨List.replicate (us.length - 1) (Except.ok ListeningAction.Continue), true, true, []⟩
        (Except.ok us :: rest)).outcome = Outcome.blocked
    ∧ (channel tm c0
        ⟨List.replicate (us.length - 1) (Except.ok ListeningAction.Continue), true, true, []⟩
        (Except.ok us :: rest)).fetches
      = [FetchCall.mk c0 (some (tm.getD 30)) none] := by
  obtain ⟨h', hfin, hhandled, hfetches⟩ :=
    processBatch_channel_blocks rest.head? us [] c0 c0 hne
  show ((listenLoop channelHandler (some (tm.getD 30)) (Except.ok us :: rest) c0 c0
        ⟨List.replicate (us.length - 1) (Except.ok ListeningAction.Continue),
         true, true, []⟩).sFinal).sent = us
    ∧ (listenLoop channelHandler (some (tm.getD 30)) (Except.ok us :: rest) c0 c0
        ⟨List.replicate (us.length - 1) (Except.ok ListeningAction.Continue),
         true, true, []⟩).outcome = Outcome.blocked
    ∧ (listenLoop channelHandler (some (tm.getD 30)) (Except.ok us :: rest) c0 c0
        ⟨List.replicate (us.length - 1) (Except.ok ListeningAction.Continue),
         true, true, []⟩).fetches = [FetchCall.mk c0 (some (tm.getD 30)) none]
  rw [listenLoop_ok_done channelHandler (some (tm.getD 30)) us rest c0 c0
      ⟨List.replicate (us.length - 1) (Except.ok ListeningAction.Continue), true, true, []⟩
      Outcome.blocked h' c0 ⟨[], true, true, [] ++ us⟩ hfin]
  exact ⟨by simp, rfl, by simp [hfetches]⟩

/-- Witness for C7 as amended at a concrete input: two events, one
acknowledgment; both events reach the consumer, the worker blocks, and only
the one long poll was issued. -/
theorem channel_acks_events_count_w :
    ((channel none 0
        ⟨List.replicate ([Update.mk 1, Update.mk 2].length - 1) (Except.ok ListeningAction.Continue), true, true, []⟩
        (Except.ok [Update.mk 1, Update.mk 2] :: [])).sFinal).sent = [Update.mk 1, Update.mk 2]
    ∧ (channel none 0
        ⟨List.replicate ([Update.mk 1, Update.mk 2].length - 1) (Except.ok ListeningAction.Continue), true, true, []⟩
        (Except.ok [Update.mk 1, Update.mk 2] :: [])).outcome = Outcome.blocked
    ∧ (channel none 0
        ⟨List.replicate ([Update.mk 1, Update.mk 2].length - 1) (Except.ok ListeningAction.Continue), true, true, []⟩
        (Except.ok [Update.mk 1, Update.mk 2] :: [])).fetches
      = [FetchCall.mk 0 (some (Option.getD none 30)) none] :=
  channel_acks_events_count none 0 [Update.mk 1, Update.mk 2] [] (by decide)

/-- C8: if the consumer has dropped the update receiver, the worker's handler
treats the failed send exactly as a handler returning Ok(Stop) — the update
is not delivered and the handler state is untouched — and the run, on the
first batch carrying an event, issues a force-acknowledge fetch at the
advanced cursor and terminates with Ok within that fetch cycle: no fault is
raised and nothing was sent to the consumer. -/
theorem channel_rx_dropped_stops (tm : Option Int) (c0 : Int) (u : Update)
    (us' ar : List Update) (rest : List (Except Err (List Update)))
    (acks : List (Except Err ListeningAction)) (aliveA : Bool) :
    channelHandler ⟨acks, aliveA, false, []⟩ u
      = (⟨acks, aliveA, false, []⟩, HandlerOutcome.ret (Except.ok ListeningAction.Stop))
    ∧ (channel tm c0 ⟨acks, aliveA, false, []⟩
        (Except.ok (u :: us') :: Except.ok ar :: rest)).outcome = Outcome.ok
    ∧ (channel tm c0 ⟨acks, aliveA, false, []⟩
        (Except.ok (u :: us') :: Except.ok ar :: rest)).fetches
      = [FetchCall.mk c0 (some (tm.getD 30)) none, FetchCall.mk (advance c0 u) none (some 0)]
    ∧ (channel tm c0 ⟨acks, aliveA, false, []⟩
        (Except.ok (u :: us') :: Except.ok ar :: rest)).handled = [u]
    ∧ ((channel tm c0 ⟨acks, aliveA, false, []⟩
        (Except.ok (u :: us') :: Except.ok ar :: rest)).sFinal).sent = [] :=
  ⟨rfl, rfl, rfl, rfl, rfl⟩

/-- Counterexample to C9: with the event [1] delivered and the consumer
having dropped the acknowledgment sender without sending, the worker does not
block: `res_rx.recv()` fails immediately and
`recv().unwrap_or(Ok(ListeningAction::Stop))` turns this into Ok(Stop), so
the run force-acknowledges and terminates gracefully with Ok — its outcome is
not `blocked`. -/
theorem channel_ack_drop_cex :
    (channel none 0 ⟨[], false, true, []⟩ [Except.ok [Update.mk 1], Except.ok []]).outcome
      = Outcome.ok
    ∧ ¬ (channel none 0 ⟨[], false, true, []⟩
        [Except.ok [Update.mk 1], Except.ok []]).outcome = Outcome.blocked
    ∧ channelHandler ⟨[], false, true, []⟩ (Update.mk 1)
      = (⟨[], false, true, [Update.mk 1]⟩, HandlerOutcome.ret (Except.ok ListeningAction.Stop)) := by
  refine ⟨rfl, ?_, rfl⟩
  decide

/-- C9 as amended: if the consumer drops the acknowledgment sender without
sending, the worker's receive fails at once and is treated as Ok(Stop): the
run force-acknowledges at the advanced cursor and terminates gracefully with
Ok after the event was delivered.  The worker blocks indefinitely on the
receive only when the consumer keeps the acknowledgment sender alive without
ever sending. -/
theorem channel_ack_drop_behavior (tm : Option Int) (c0 : Int) (u : Update)
    (us' ar : List Update) (rest rest2 : List (Except Err (List Update))) :
    (channel tm c0 ⟨[], false, true, []⟩
        (Except.ok (u :: us') :: Except.ok ar :: rest)).outcome = Outcome.ok
    ∧ (channel tm c0 ⟨[], false, true, []⟩
        (Except.ok (u :: us') :: Except.ok ar :: rest)).fetches
      = [FetchCall.mk c0 (some (tm.getD 30)) none, FetchCall.mk (advance c0 u) none (some 0)]
    ∧ ((channel tm c0 ⟨[], false, true, []⟩
        (Except.ok (u :: us') :: Except.ok ar :: rest)).sFinal).sent = [u]
    ∧ (channel tm c0 ⟨[], true, true, []⟩
        (Except.ok (u :: us') :: rest2)).outcome = Outcome.blocked
    ∧ ((channel tm c0 ⟨[], true, true, []⟩
        (Except.ok (u :: us') :: rest2)).sFinal).sent = [u] :=
  ⟨rfl, rfl, rfl, rfl, rfl⟩
